import Mathlib

/-!
# YtDownload — verification of the media-acquisition pipeline

Shallow embedding of the Go backend of the YtDownload repository
(`backend/handlers/video.go`, `backend/bot/telegram.go` and the
self-contained bot source).  Pure functions of the Go code become Lean
functions; the `int64` fields become `Int` (none of the arithmetic here can
overflow 64 bits on the values the claims quantify over), the `float64`
average bitrate becomes an exact rational, and the stateful parts
(the SSE scan loop, the owner registration) become explicit state passing.

The Go standard library sort (`sort.Slice`) is modelled twice:
* `goSortSlice` realizes the library contract — a permutation sorted by the
  comparator — resolving the order of equal keys stably (the contract leaves
  it unspecified: `sort.Slice` is documented as not guaranteed to be stable);
* `sortSliceGo`, further below, is an executable embedding of the actual
  algorithm the Go runtime uses (pdqsort, Go ≥ 1.19), which is used to
  exhibit concrete behaviour of the real code on equal keys.
-/

set_option maxHeartbeats 1000000

/-- One encoding descriptor parsed from the metadata JSON (struct
`ytdlpFormat` in both Go sources).  Go `int64` becomes `Int`; the `float64`
field `ABR` becomes an exact rational. -/
structure YtdlpFormat where
  formatID : String
  ext : String
  height : Int
  filesize : Int
  filesizeA : Int
  vcodec : String
  acodec : String
  abr : ℚ
  deriving DecidableEq

/-- The metadata document (struct `ytdlpInfo`).  Only the fields the claimed
operations read are carried. -/
structure YtdlpInfo where
  id : String
  title : String
  formats : List YtdlpFormat
  deriving DecidableEq

/-- A user-facing format choice (struct `FormatInfo` in
`backend/handlers/video.go`).  `height` is set only by the video selector and
`bitrate` only by the audio selector (the Go zero value `0` otherwise). -/
structure FormatInfo where
  formatID : String
  quality : String
  height : Int
  bitrate : Int
  size : Int
  deriving DecidableEq

/-- `const maxFileSize = 50 * 1024 * 1024` (50 MB), the Telegram size
ceiling. -/
def maxFileSize : Int := 50 * 1024 * 1024

/-- `size := f.Filesize; if size <= 0 { size = f.FilesizeA }`: the raw size of
a candidate — the exact filesize when positive, else the approximate
filesize, unmodified. -/
def candSize (f : YtdlpFormat) : Int :=
  if f.filesize ≤ 0 then f.filesizeA else f.filesize

/-! ## The contract model of `sort.Slice`

All three sort call sites of the repository sort in strictly-descending key
order: `less i j := key l[i] > key l[j]` with `key` the height (video sites)
or the average bitrate (audio site).  `goSortSlice key` returns the input
permuted into non-increasing `key` order; equal-key elements keep their
input order in this model (one admissible behaviour of the unstable library
sort). -/

/-- Insert `a` in front of the first element `b` with `key b ≤ key a`. -/
def goOrderedInsert {α β : Type} (key : α → β) [LinearOrder β] (a : α) :
    List α → List α
  | [] => [a]
  | b :: l =>
    if key b ≤ key a then a :: b :: l else b :: goOrderedInsert key a l

/-- Contract model of `sort.Slice(l, func(i, j) { return key(l[i]) > key(l[j]) })`. -/
def goSortSlice {α β : Type} (key : α → β) [LinearOrder β] : List α → List α
  | [] => []
  | b :: l => goOrderedInsert key b (goSortSlice key l)

theorem goOrderedInsert_perm {α β : Type} (key : α → β) [LinearOrder β]
    (a : α) (l : List α) : List.Perm (goOrderedInsert key a l) (a :: l) := by
  induction l with
  | nil => exact List.Perm.refl _
  | cons b l ih =>
    rw [goOrderedInsert]
    split
    · exact List.Perm.refl _
    · exact (ih.cons b).trans (List.Perm.swap a b l)

theorem goSortSlice_perm {α β : Type} (key : α → β) [LinearOrder β]
    (l : List α) : List.Perm (goSortSlice key l) l := by
  induction l with
  | nil => exact List.Perm.refl _
  | cons b l ih => exact (goOrderedInsert_perm key b _).trans (ih.cons b)

theorem goOrderedInsert_sorted {α β : Type} (key : α → β) [LinearOrder β]
    (a : α) (l : List α) (h : l.Pairwise (fun x y => key y ≤ key x)) :
    (goOrderedInsert key a l).Pairwise (fun x y => key y ≤ key x) := by
  induction l with
  | nil => simp [goOrderedInsert]
  | cons b l ih =>
    rw [goOrderedInsert]
    split
    · rename_i hba
      refine List.pairwise_cons.2 ⟨?_, h⟩
      intro c hc
      rcases List.mem_cons.1 hc with rfl | hc
      · exact hba
      · exact le_trans (List.rel_of_pairwise_cons h hc) hba
    · rename_i hba
      refine List.pairwise_cons.2 ⟨?_, ih (List.Pairwise.of_cons h)⟩
      intro c hc
      rcases List.mem_cons.1 ((goOrderedInsert_perm key a l).mem_iff.1 hc) with rfl | hc
      · exact le_of_lt (lt_of_not_le hba)
      · exact List.rel_of_pairwise_cons h hc

theorem goSortSlice_sorted {α β : Type} (key : α → β) [LinearOrder β]
    (l : List α) :
    (goSortSlice key l).Pairwise (fun x y => key y ≤ key x) := by
  induction l with
  | nil => exact List.Pairwise.nil
  | cons b l ih => exact goOrderedInsert_sorted key b _ ih

/-- Elements in front of the insertion point of `a` have keys strictly above
`key a`, so inserting `a` prepends it to the sublist of any fixed key value
`v = key a`. -/
theorem goOrderedInsert_filter_pos {α β : Type} (key : α → β) [LinearOrder β]
    (v : β) (a : α) (l : List α) (ha : key a = v) :
    (goOrderedInsert key a l).filter (fun x => decide (key x = v)) =
      a :: l.filter (fun x => decide (key x = v)) := by
  induction l with
  | nil => simp [goOrderedInsert, ha]
  | cons b l ih =>
    rw [goOrderedInsert]
    split
    · simp [List.filter_cons, ha]
    · rename_i hba
      have hb : ¬ key b = v := by
        intro hbv
        exact hba (le_of_eq (hbv.trans ha.symm))
      simp [List.filter_cons, hb, ih]

theorem goOrderedInsert_filter_neg {α β : Type} (key : α → β) [LinearOrder β]
    (v : β) (a : α) (l : List α) (ha : ¬ key a = v) :
    (goOrderedInsert key a l).filter (fun x => decide (key x = v)) =
      l.filter (fun x => decide (key x = v)) := by
  induction l with
  | nil => simp [goOrderedInsert, ha]
  | cons b l ih =>
    rw [goOrderedInsert]
    split
    · simp [List.filter_cons, ha]
    · simp only [List.filter_cons, ih]

/-- Stability of the contract model: the sublist of elements of any fixed
key value is unchanged by the sort. -/
theorem goSortSlice_filter_key {α β : Type} (key : α → β) [LinearOrder β]
    (v : β) (l : List α) :
    (goSortSlice key l).filter (fun x => decide (key x = v)) =
      l.filter (fun x => decide (key x = v)) := by
  induction l with
  | nil => rfl
  | cons b l ih =>
    by_cases hb : key b = v
    · rw [goSortSlice, goOrderedInsert_filter_pos key v b _ hb, ih,
        List.filter_cons_of_pos (by simpa using hb)]
    · rw [goSortSlice, goOrderedInsert_filter_neg key v b _ hb, ih,
        List.filter_cons_of_neg (by simpa using hb)]

theorem find?_eq_head?_filter {α : Type} (p : α → Bool) (l : List α) :
    l.find? p = (l.filter p).head? := by
  induction l with
  | nil => rfl
  | cons b l ih =>
    by_cases hb : p b
    · rw [List.find?_cons_of_pos _ hb, List.filter_cons_of_pos hb, List.head?_cons]
    · rw [List.find?_cons_of_neg _ (by simpa using hb),
        List.filter_cons_of_neg (by simpa using hb), ih]

/-- The first element of a given key value in the sorted list is the first
element of that key value in the input. -/
theorem goSortSlice_find?_key {α β : Type} (key : α → β) [LinearOrder β]
    (v : β) (l : List α) :
    (goSortSlice key l).find? (fun x => decide (key x = v)) =
      l.find? (fun x => decide (key x = v)) := by
  rw [find?_eq_head?_filter, find?_eq_head?_filter, goSortSlice_filter_key]

/-- In a list sorted by non-increasing key, `find?` returns an element whose
key is maximal among all elements satisfying the predicate. -/
theorem find?_sorted_max {α β : Type} (key : α → β) [LinearOrder β]
    (p : α → Bool) (l : List α) (c : α)
    (hs : l.Pairwise (fun x y => key y ≤ key x)) (hc : l.find? p = some c) :
    p c = true ∧ c ∈ l ∧ ∀ d ∈ l, p d = true → key d ≤ key c := by
  induction l with
  | nil => simp at hc
  | cons b l ih =>
    by_cases hb : p b
    · rw [List.find?_cons_of_pos _ hb, Option.some_inj] at hc
      subst hc
      refine ⟨hb, List.mem_cons_self _ _, ?_⟩
      intro d hd _
      rcases List.mem_cons.1 hd with rfl | hd
      · exact le_refl _
      · exact List.rel_of_pairwise_cons hs hd
    · rw [List.find?_cons_of_neg _ (by simpa using hb)] at hc
      obtain ⟨h1, h2, h3⟩ := ih (List.Pairwise.of_cons hs) hc
      refine ⟨h1, List.mem_cons_of_mem _ h2, ?_⟩
      intro d hd hpd
      rcases List.mem_cons.1 hd with rfl | hd
      · exact absurd hpd hb
      · exact h3 d hd hpd

/-- In a list sorted by non-increasing key, the last element has minimal
key. -/
theorem getLast?_sorted_min {α β : Type} (key : α → β) [LinearOrder β]
    (l : List α) (c : α)
    (hs : l.Pairwise (fun x y => key y ≤ key x)) (hc : l.getLast? = some c) :
    c ∈ l ∧ ∀ d ∈ l, key c ≤ key d := by
  induction l with
  | nil => simp at hc
  | cons b l ih =>
    cases l with
    | nil =>
      simp only [List.getLast?_singleton, Option.some_inj] at hc
      subst hc
      exact ⟨List.mem_singleton_self _, by intro d hd; rw [List.mem_singleton.1 hd]⟩
    | cons b' l' =>
      rw [List.getLast?_cons_cons] at hc
      obtain ⟨h1, h2⟩ := ih (List.Pairwise.of_cons hs) hc
      refine ⟨List.mem_cons_of_mem _ h1, ?_⟩
      intro d hd
      rcases List.mem_cons.1 hd with rfl | hd
      · exact List.rel_of_pairwise_cons hs h1
      · exact h2 d hd

/-! ## The dedup loop

`seen := map[...]bool{}` followed by a walk keeping the first element of
every key class, shared (with different keys) by `buildVideoFormats`,
`buildAudioFormats`. -/

/-- The dedup walk with the Go `seen` map as an explicit list of keys. -/
def dedupByGo {α β : Type} (key : α → β) [DecidableEq β] (seen : List β) :
    List α → List α
  | [] => []
  | b :: l =>
    if key b ∈ seen then dedupByGo key seen l
    else b :: dedupByGo key (key b :: seen) l

/-- Dedup with an initially empty `seen` map. -/
def dedupBy {α β : Type} (key : α → β) [DecidableEq β] (l : List α) : List α :=
  dedupByGo key [] l

theorem dedupByGo_sublist {α β : Type} (key : α → β) [DecidableEq β]
    (seen : List β) (l : List α) : List.Sublist (dedupByGo key seen l) l := by
  induction l generalizing seen with
  | nil => exact List.Sublist.refl _
  | cons b l ih =>
    rw [dedupByGo]
    split
    · exact (ih seen).cons b
    · exact (ih (key b :: seen)).cons₂ b

theorem dedupByGo_mem_seen {α β : Type} (key : α → β) [DecidableEq β]
    (seen : List β) (l : List α) (x : α) (hx : x ∈ dedupByGo key seen l) :
    key x ∉ seen := by
  induction l generalizing seen with
  | nil => simp [dedupByGo] at hx
  | cons b l ih =>
    rw [dedupByGo] at hx
    split at hx
    · exact ih seen hx
    · rcases List.mem_cons.1 hx with rfl | hx
      · assumption
      · intro hmem
        exact ih (key b :: seen) hx (List.mem_cons_of_mem _ hmem)

theorem dedupByGo_pairwise_ne {α β : Type} (key : α → β) [DecidableEq β]
    (seen : List β) (l : List α) :
    (dedupByGo key seen l).Pairwise (fun x y => key x ≠ key y) := by
  induction l generalizing seen with
  | nil => exact List.Pairwise.nil
  | cons b l ih =>
    rw [dedupByGo]
    split
    · exact ih seen
    · refine List.pairwise_cons.2 ⟨?_, ih (key b :: seen)⟩
      intro y hy hk
      exact dedupByGo_mem_seen key _ l y hy (hk ▸ List.mem_cons_self _ _)

/-- Every retained element is the first element of its key class in the
walked list. -/
theorem dedupByGo_find? {α β : Type} (key : α → β) [DecidableEq β]
    (seen : List β) (l : List α) (x : α) (hx : x ∈ dedupByGo key seen l) :
    l.find? (fun y => decide (key y = key x)) = some x := by
  induction l generalizing seen with
  | nil => simp [dedupByGo] at hx
  | cons b l ih =>
    rw [dedupByGo] at hx
    split at hx
    · rename_i hseen
      have hne : ¬ key b = key x := by
        intro h
        exact dedupByGo_mem_seen key seen l x hx (h ▸ hseen)
      rw [List.find?_cons_of_neg _ (by simpa using hne)]
      exact ih seen hx
    · rename_i hseen
      rcases List.mem_cons.1 hx with rfl | hx
      · rw [List.find?_cons_of_pos _ (by simp)]
      · have hne : ¬ key b = key x := by
          intro h
          exact dedupByGo_mem_seen key _ l x hx (h ▸ List.mem_cons_self _ _)
        rw [List.find?_cons_of_neg _ (by simpa using hne)]
        exact ih (key b :: seen) hx

/-- Every key present in the walked list is either already seen or
represented in the output. -/
theorem dedupByGo_key_covered {α β : Type} (key : α → β) [DecidableEq β]
    (seen : List β) (l : List α) (x : α) (hx : x ∈ l) :
    key x ∈ seen ∨ ∃ y ∈ dedupByGo key seen l, key y = key x := by
  induction l generalizing seen with
  | nil => simp at hx
  | cons b l ih =>
    rw [dedupByGo]
    rcases List.mem_cons.1 hx with rfl | hx
    · by_cases hb : key x ∈ seen
      · exact Or.inl hb
      · rw [if_neg hb]
        exact Or.inr ⟨x, List.mem_cons_self _ _, rfl⟩
    · by_cases hb : key b ∈ seen
      · rw [if_pos hb]
        exact ih seen hx
      · rw [if_neg hb]
        rcases ih (key b :: seen) hx with hmem | ⟨y, hy, hk⟩
        · rcases List.mem_cons.1 hmem with heq | hmem'
          · exact Or.inr ⟨b, List.mem_cons_self _ _, heq.symm⟩
          · exact Or.inl hmem'
        · exact Or.inr ⟨y, List.mem_cons_of_mem _ hy, hk⟩

/-- Dedup of a list sorted by non-increasing key is sorted by strictly
decreasing key. -/
theorem dedupBy_pairwise_lt {α β : Type} (key : α → β) [LinearOrder β]
    (l : List α) (hs : l.Pairwise (fun x y => key y ≤ key x)) :
    (dedupBy key l).Pairwise (fun x y => key y < key x) := by
  have hsub : List.Sublist (dedupBy key l) l := dedupByGo_sublist key [] l
  have h1 : (dedupBy key l).Pairwise (fun x y => key y ≤ key x) :=
    hs.sublist hsub
  have h2 : (dedupBy key l).Pairwise (fun x y => key x ≠ key y) :=
    dedupByGo_pairwise_ne key [] l
  exact (h1.and h2).imp (fun h => lt_of_le_of_ne h.1 (Ne.symm h.2))

/-! ## Format Selector — video mode (`buildVideoFormats`) -/

/-- The keep-condition of the video filter loop: the Go code skips a
candidate when `f.Ext != "mp4"`, or `f.VCodec == "" || f.VCodec == "none"`,
or `f.Height <= 0`. -/
def videoKeep (f : YtdlpFormat) : Bool :=
  f.ext == "mp4" && f.vcodec != "" && f.vcodec != "none" && decide (0 < f.height)

/-- Projection of a retained candidate to the user-facing entry
(`FormatInfo{FormatID, Quality: "%dp", Height, Size}`). -/
def mkVideoEntry (f : YtdlpFormat) : FormatInfo :=
  ⟨f.formatID, toString f.height ++ "p", f.height, 0, candSize f⟩

/-- `if len(unique) > 5 { unique = unique[:5] }`. -/
def truncate5 {α : Type} (l : List α) : List α :=
  if 5 < l.length then l.take 5 else l

/-- `buildVideoFormats`: filter to mp4/video-codec/positive-height, sort
descending by height, dedup by height, truncate to 5, project. -/
def buildVideoFormats (info : YtdlpInfo) : List FormatInfo :=
  let videoFormats := info.formats.filter videoKeep
  let sorted := goSortSlice (fun f => f.height) videoFormats
  let unique := dedupBy (fun f => f.height) sorted
  (truncate5 unique).map mkVideoEntry

/-! ## Format Selector — audio mode (`buildAudioFormats`) -/

/-- The keep-condition of the audio filter loop: skip when
`f.ACodec == "" || f.ACodec == "none"`, or `f.VCodec != "" && f.VCodec != "none"`,
or `f.ABR <= 0`. -/
def audioKeep (f : YtdlpFormat) : Bool :=
  f.acodec != "" && f.acodec != "none" &&
    (f.vcodec == "" || f.vcodec == "none") && decide (0 < f.abr)

/-- Go `int(x)` conversion: truncation toward zero.  On the exact rational
`q = num/den` this is the truncating division `num.tdiv den` (kept in
`num`/`den` form so that it evaluates inside the kernel). -/
def ratTrunc (q : ℚ) : Int := q.num.tdiv q.den

/-- `key := int(f.ABR/10) * 10` — the 10-kbps dedup bucket.  The truncation
of `f.abr / 10` computed on the exact rational: `num.tdiv (10 * den)`. -/
def abrBucket (f : YtdlpFormat) : Int :=
  f.abr.num.tdiv (10 * (f.abr.den : Int)) * 10

/-- `%.0f` applied to the bitrate: `⌊q + 1/2⌋ = ⌊(2⬝num + den)/(2⬝den)⌋`,
computed as a flooring division.  (`%.0f` rounds half to even while this
rounds half up; the two differ only on exact halves, which no claim
depends on.) -/
def ratRound (q : ℚ) : Int := Int.fdiv (2 * q.num + (q.den : Int)) (2 * (q.den : Int))

/-- Projection of a retained audio candidate
(`FormatInfo{FormatID, Quality: "%.0f kbps", Bitrate: int(f.ABR), Size}`).
(`%.0f` rounds half to even while `round` rounds half up; the two differ
only on exact halves, which no claim depends on.) -/
def mkAudioEntry (f : YtdlpFormat) : FormatInfo :=
  ⟨f.formatID, toString (ratRound f.abr) ++ " kbps", 0, ratTrunc f.abr, candSize f⟩

/-- `buildAudioFormats`: filter to audio-only/positive-bitrate, sort
descending by bitrate, dedup by 10-kbps bucket, truncate to 5, project. -/
def buildAudioFormats (info : YtdlpInfo) : List FormatInfo :=
  let audioFormats := info.formats.filter audioKeep
  let sorted := goSortSlice (fun f => f.abr) audioFormats
  let unique := dedupBy abrBucket sorted
  (truncate5 unique).map mkAudioEntry

/-- The 10-kbps bucket as recomputed from a user-facing entry's stored
bitrate (`int64` arithmetic, truncating division). -/
def entryBucket (e : FormatInfo) : Int := (e.bitrate.tdiv 10) * 10

theorem truncate5_sublist {α : Type} (l : List α) :
    List.Sublist (truncate5 l) l := by
  unfold truncate5
  split
  · exact List.take_sublist 5 l
  · exact List.Sublist.refl l

theorem truncate5_length {α : Type} (l : List α) : (truncate5 l).length ≤ 5 := by
  unfold truncate5
  split
  · simp [List.length_take]
  · omega

theorem truncate5_eq_of_length_lt {α : Type} (l : List α)
    (h : (truncate5 l).length < 5) : truncate5 l = l := by
  unfold truncate5 at *
  split at h
  · rename_i h5
    rw [List.length_take] at h
    omega
  · rename_i h5
    rw [if_neg h5]

theorem audioKeep_abr_pos (f : YtdlpFormat) (h : audioKeep f = true) :
    0 < f.abr := by
  simp only [audioKeep, Bool.and_eq_true, decide_eq_true_eq] at h
  exact h.2

theorem ratTrunc_eq_floor (q : ℚ) (h : 0 ≤ q) : ratTrunc q = ⌊q⌋ := by
  unfold ratTrunc
  rw [Int.tdiv_eq_ediv (Rat.num_nonneg.2 h) (Int.natCast_nonneg _), Rat.floor_def]

theorem floor_div_ten (q : ℚ) : ⌊q / 10⌋ = ⌊q⌋ / 10 := by
  have h : ∀ z : ℤ, z ≤ ⌊q / 10⌋ ↔ z ≤ ⌊q⌋ / 10 := by
    intro z
    rw [Int.le_floor, le_div_iff₀ (by norm_num : (0:ℚ) < 10),
      Int.le_ediv_iff_mul_le (by norm_num : (0:ℤ) < 10), Int.le_floor]
    push_cast
    exact Iff.rfl
  exact le_antisymm ((h _).1 le_rfl) ((h _).2 le_rfl)

theorem floor_div_ten' (q : ℚ) : ⌊q / 10⌋ = q.num / (10 * (q.den : Int)) := by
  have hden : (0 : ℤ) < (q.den : ℤ) := Int.natCast_pos.2 q.den_pos
  have h : ∀ z : ℤ, z ≤ ⌊q / 10⌋ ↔ z ≤ q.num / (10 * (q.den : Int)) := by
    intro z
    calc z ≤ ⌊q / 10⌋
        ↔ (z : ℚ) ≤ q / 10 := Int.le_floor
      _ ↔ (z : ℚ) * 10 ≤ q := le_div_iff₀ (by norm_num)
      _ ↔ z * 10 ≤ ⌊q⌋ := by
          rw [Int.le_floor]
          constructor <;> intro hzq <;> exact_mod_cast hzq
      _ ↔ z * 10 ≤ q.num / (q.den : Int) := by rw [Rat.floor_def]
      _ ↔ z * 10 * (q.den : Int) ≤ q.num := Int.le_ediv_iff_mul_le hden
      _ ↔ z * (10 * (q.den : Int)) ≤ q.num := by rw [mul_assoc]
      _ ↔ z ≤ q.num / (10 * (q.den : Int)) :=
          (Int.le_ediv_iff_mul_le (by positivity)).symm
  exact le_antisymm ((h _).1 le_rfl) ((h _).2 le_rfl)

/-- On a nonnegative bitrate the bucket is `⌊abr/10⌋ * 10`. -/
theorem abrBucket_eq_floor (f : YtdlpFormat) (h : 0 ≤ f.abr) :
    abrBucket f = ⌊f.abr / 10⌋ * 10 := by
  unfold abrBucket
  rw [Int.tdiv_eq_ediv (Rat.num_nonneg.2 h) (by positivity), floor_div_ten']

/-- On a positive-bitrate candidate the bucket recomputed from the stored
integer bitrate agrees with the candidate-level bucket. -/
theorem entryBucket_mkAudioEntry (f : YtdlpFormat) (h : 0 < f.abr) :
    entryBucket (mkAudioEntry f) = abrBucket f := by
  show (ratTrunc f.abr).tdiv 10 * 10 = abrBucket f
  rw [ratTrunc_eq_floor _ (le_of_lt h),
    Int.tdiv_eq_ediv (Int.floor_nonneg.2 (le_of_lt h)) (by norm_num),
    ← floor_div_ten, ← abrBucket_eq_floor f (le_of_lt h)]

theorem abrBucket_mono (a b : YtdlpFormat) (hb : 0 ≤ b.abr)
    (hle : b.abr ≤ a.abr) : abrBucket b ≤ abrBucket a := by
  have ha : 0 ≤ a.abr := le_trans hb hle
  rw [abrBucket_eq_floor a ha, abrBucket_eq_floor b hb]
  have : ⌊b.abr / 10⌋ ≤ ⌊a.abr / 10⌋ :=
    Int.floor_le_floor (by gcongr)
  omega

/-- **C6**: `buildVideoFormats` keeps only candidates with container
extension mp4, video codec present and not "none", and height > 0
(`videoKeep`); its output has at most 5 entries, strictly decreasing in
height (hence no two entries share a height); each output entry is the
projection of a kept candidate, whose size is the exact filesize when
positive, else the approximate filesize, unmodified (`mkVideoEntry` /
`candSize`); and when fewer than 5 entries are produced every kept
candidate's height is represented. -/
theorem buildVideoFormats_spec (info : YtdlpInfo) :
    (buildVideoFormats info).length ≤ 5 ∧
    (buildVideoFormats info).Pairwise (fun a b => b.height < a.height) ∧
    (∀ e ∈ buildVideoFormats info,
      ∃ f ∈ info.formats, videoKeep f = true ∧ e = mkVideoEntry f) ∧
    ((buildVideoFormats info).length < 5 →
      ∀ f ∈ info.formats, videoKeep f = true →
        ∃ e ∈ buildVideoFormats info, e.height = f.height) := by
  have hdef : buildVideoFormats info =
      (truncate5 (dedupBy (fun f => f.height)
        (goSortSlice (fun f => f.height) (info.formats.filter videoKeep)))).map
        mkVideoEntry := rfl
  rw [hdef]
  refine ⟨?_, ?_, ?_, ?_⟩
  · rw [List.length_map]
    exact truncate5_length _
  · have hD := dedupBy_pairwise_lt (fun f : YtdlpFormat => f.height)
      (goSortSlice (fun f : YtdlpFormat => f.height) (info.formats.filter videoKeep))
      (goSortSlice_sorted (fun f : YtdlpFormat => f.height) _)
    have hT := hD.sublist (truncate5_sublist _)
    exact List.pairwise_map.2 hT
  · intro e he
    rcases List.mem_map.1 he with ⟨f, hfT, rfl⟩
    have hfD := (truncate5_sublist _).subset hfT
    have hfS := (dedupByGo_sublist (fun f : YtdlpFormat => f.height) [] _).subset hfD
    have hfV := (goSortSlice_perm (fun f : YtdlpFormat => f.height) _).mem_iff.1 hfS
    rcases List.mem_filter.1 hfV with ⟨hmem, hkeep⟩
    exact ⟨f, hmem, hkeep, rfl⟩
  · intro h5 f hmem hkeep
    rw [List.length_map] at h5
    have hTD := truncate5_eq_of_length_lt _ h5
    have hfV : f ∈ info.formats.filter videoKeep := List.mem_filter.2 ⟨hmem, hkeep⟩
    have hfS := (goSortSlice_perm (fun f : YtdlpFormat => f.height) _).mem_iff.2 hfV
    rcases dedupByGo_key_covered (fun f : YtdlpFormat => f.height) [] _ f hfS with
      habs | ⟨y, hy, hk⟩
    · simp at habs
    · exact ⟨mkVideoEntry y, List.mem_map_of_mem _ (hTD.symm ▸ hy), hk⟩

/-- **C3**: `buildAudioFormats` keeps exactly the candidates whose audio
codec is present and not "none", whose video codec is absent or "none", and
whose bitrate is > 0 (`audioKeep`); sorts descending by bitrate;
deduplicates by the bitrate bucketed to 10 kbps (`abrBucket`, dropping a
candidate whose bucket was already kept); truncates to at most 5; the
output has strictly decreasing buckets (hence no two entries share a
bucket), every entry is the projection of a kept candidate, and when fewer
than 5 entries are produced every kept candidate's bucket is
represented. -/
theorem buildAudioFormats_spec (info : YtdlpInfo) :
    (buildAudioFormats info).length ≤ 5 ∧
    (buildAudioFormats info).Pairwise (fun a b => entryBucket b < entryBucket a) ∧
    (∀ e ∈ buildAudioFormats info,
      ∃ f ∈ info.formats, audioKeep f = true ∧ e = mkAudioEntry f) ∧
    ((buildAudioFormats info).length < 5 →
      ∀ f ∈ info.formats, audioKeep f = true →
        ∃ e ∈ buildAudioFormats info, entryBucket e = abrBucket f) := by
  have hdef : buildAudioFormats info =
      (truncate5 (dedupBy abrBucket
        (goSortSlice (fun f => f.abr) (info.formats.filter audioKeep)))).map
        mkAudioEntry := rfl
  have hSpos : ∀ x ∈ goSortSlice (fun f : YtdlpFormat => f.abr)
      (info.formats.filter audioKeep), 0 < x.abr := by
    intro x hx
    have hxV := (goSortSlice_perm (fun f : YtdlpFormat => f.abr) _).mem_iff.1 hx
    exact audioKeep_abr_pos x (List.mem_filter.1 hxV).2
  have hSbucket : (goSortSlice (fun f : YtdlpFormat => f.abr)
      (info.formats.filter audioKeep)).Pairwise
        (fun x y => abrBucket y ≤ abrBucket x) := by
    refine List.Pairwise.imp_of_mem ?_
      (goSortSlice_sorted (fun f : YtdlpFormat => f.abr) _)
    intro a b ha hb hle
    exact abrBucket_mono a b (le_of_lt (hSpos b hb)) hle
  rw [hdef]
  refine ⟨?_, ?_, ?_, ?_⟩
  · rw [List.length_map]
    exact truncate5_length _
  · have hD := dedupBy_pairwise_lt abrBucket
      (goSortSlice (fun f : YtdlpFormat => f.abr) (info.formats.filter audioKeep)) hSbucket
    have hT := hD.sublist (truncate5_sublist _)
    refine List.pairwise_map.2 (List.Pairwise.imp_of_mem ?_ hT)
    intro a b ha hb hlt
    have haS := (dedupByGo_sublist abrBucket [] _).subset
      ((truncate5_sublist _).subset ha)
    have hbS := (dedupByGo_sublist abrBucket [] _).subset
      ((truncate5_sublist _).subset hb)
    rw [entryBucket_mkAudioEntry a (hSpos a haS),
      entryBucket_mkAudioEntry b (hSpos b hbS)]
    exact hlt
  · intro e he
    rcases List.mem_map.1 he with ⟨f, hfT, rfl⟩
    have hfD := (truncate5_sublist _).subset hfT
    have hfS := (dedupByGo_sublist abrBucket [] _).subset hfD
    have hfV := (goSortSlice_perm (fun f : YtdlpFormat => f.abr) _).mem_iff.1 hfS
    rcases List.mem_filter.1 hfV with ⟨hmem, hkeep⟩
    exact ⟨f, hmem, hkeep, rfl⟩
  · intro h5 f hmem hkeep
    rw [List.length_map] at h5
    have hTD := truncate5_eq_of_length_lt _ h5
    have hfV : f ∈ info.formats.filter audioKeep := List.mem_filter.2 ⟨hmem, hkeep⟩
    have hfS := (goSortSlice_perm (fun f : YtdlpFormat => f.abr) _).mem_iff.2 hfV
    rcases dedupByGo_key_covered abrBucket [] _ f hfS with habs | ⟨y, hy, hk⟩
    · simp at habs
    · refine ⟨mkAudioEntry y, List.mem_map_of_mem _ (hTD.symm ▸ hy), ?_⟩
      have hyS := (dedupByGo_sublist abrBucket [] _).subset hy
      rw [entryBucket_mkAudioEntry y (hSpos y hyS)]
      exact hk

/-- **C5 (amended)**: under the stable resolution of equal-height ties —
an order `sort.Slice` does *not* guarantee — every entry of the video
Format Selector output is the projection of the *first* occurrence of its
height in the filtered candidate list.  The claim as stated (that the
code's sort breaks ties by source order, so the retained representative is
always the first occurrence in input order) fails on the algorithm the Go
runtime actually uses once the filtered list exceeds the insertion-sort
regime; see `buildVideoFormatsPdq_counterexample` below. -/
theorem buildVideoFormats_first_occurrence (info : YtdlpInfo) :
    ∀ e ∈ buildVideoFormats info, ∃ f : YtdlpFormat,
      (info.formats.filter videoKeep).find?
        (fun g => decide (g.height = e.height)) = some f ∧
      e = mkVideoEntry f := by
  have hdef : buildVideoFormats info =
      (truncate5 (dedupBy (fun f => f.height)
        (goSortSlice (fun f => f.height) (info.formats.filter videoKeep)))).map
        mkVideoEntry := rfl
  intro e he
  rw [hdef] at he
  rcases List.mem_map.1 he with ⟨f, hfT, rfl⟩
  have hfD := (truncate5_sublist _).subset hfT
  refine ⟨f, ?_, rfl⟩
  have h1 := dedupByGo_find? (fun f : YtdlpFormat => f.height) [] _ f hfD
  rw [goSortSlice_find?_key] at h1
  exact h1

/-- Video-candidate constructor for the concrete examples. -/
def exVF (id : String) (h : Int) (fs : Int) : YtdlpFormat :=
  ⟨id, "mp4", h, fs, 0, "avc1", "none", 0⟩

/-- A concrete metadata document with a duplicated height and one
non-mp4 candidate. -/
def exVideoInfo : YtdlpInfo :=
  ⟨"vid", "t", [exVF "f1080" 1080 80000000, exVF "f720" 720 40000000,
    exVF "f720b" 720 30000000, ⟨"weird", "webm", 480, 1000, 0, "vp9", "none", 0⟩]⟩

theorem buildVideoFormats_spec_witness :
    (buildVideoFormats exVideoInfo).length ≤ 5 ∧
    (∃ e ∈ buildVideoFormats exVideoInfo, e.height = 720) := by
  obtain ⟨h1, -, -, h4⟩ := buildVideoFormats_spec exVideoInfo
  exact ⟨h1, h4 (by decide) (exVF "f720" 720 40000000) (by decide) (by decide)⟩

theorem buildVideoFormats_first_occurrence_witness :
    ∃ f : YtdlpFormat,
      (exVideoInfo.formats.filter videoKeep).find?
        (fun g => decide (g.height = (720 : Int))) = some f ∧
      mkVideoEntry (exVF "f720" 720 40000000) = mkVideoEntry f :=
  buildVideoFormats_first_occurrence exVideoInfo
    (mkVideoEntry (exVF "f720" 720 40000000)) (by decide)

/-- Audio-only candidate constructor for the concrete examples. -/
def exAF (id : String) (a : ℚ) : YtdlpFormat :=
  ⟨id, "m4a", 0, 1000, 0, "", "mp4a", a⟩

/-- A concrete document with two candidates in the 120-kbps bucket and one
candidate carrying a video track. -/
def exAudioInfo : YtdlpInfo :=
  ⟨"aud", "t", [exAF "a128" 128, exAF "a125" 125, exAF "a64" 64,
    ⟨"vtrack", "mp4", 720, 1000, 0, "avc1", "mp4a", 96⟩]⟩

theorem buildAudioFormats_spec_witness :
    (buildAudioFormats exAudioInfo).length ≤ 5 ∧
    (∃ e ∈ buildAudioFormats exAudioInfo,
      entryBucket e = abrBucket (exAF "a64" 64)) := by
  obtain ⟨h1, -, -, h4⟩ := buildAudioFormats_spec exAudioInfo
  exact ⟨h1, h4 (by decide) (exAF "a64" 64) (by decide) (by decide)⟩

/-! ## Bot auto-selection (`pickBestFormat`, self-contained bot source) -/

/-- The candidate record built by the filter loop of `pickBestFormat`. -/
structure BotCandidate where
  formatID : String
  height : Int
  size : Int
  deriving DecidableEq

/-- `estimated := int64(float64(size) * 1.15)` — the 15% audio-muxing
margin.  Computed exactly as the truncation of `size * 23/20`
(`23/20 = 1.15`); the binary64 computation agrees with the exact value for
all `|size|` below ≈ 2·10¹⁴ bytes: when `23·size/20` is an exact integer
the float product rounds to exactly that integer (its error is below half
an ulp), and otherwise the distance to the nearest integer is ≥ 1/20,
far above the rounding error. -/
def estimateSize (raw : Int) : Int := (raw * 23).tdiv 20

/-- The filter and size-estimation loop of `pickBestFormat`: skip unless
container mp4, video codec present and not "none", height > 0. -/
def botCandidates (info : YtdlpInfo) : List BotCandidate :=
  info.formats.filterMap fun f =>
    if f.ext != "mp4" || f.vcodec == "" || f.vcodec == "none" ||
        decide (f.height ≤ 0) then
      none
    else
      some ⟨f.formatID, f.height, estimateSize (candSize f)⟩

/-- `c.size > 0 && c.size <= maxFileSize` — the size-budget test of the
first fallback rule. -/
def fitsCeiling (c : BotCandidate) : Bool :=
  decide (0 < c.size) && decide (c.size ≤ maxFileSize)

/-- `pickBestFormat`: sort candidates by descending height, then return
1. the first candidate with positive estimated size ≤ 50 MB;
2. else the first candidate with height ≤ 720;
3. else the last (lowest-height) candidate;
4. else (no candidates) the empty string. -/
def pickBestFormat (info : YtdlpInfo) : String :=
  let candidates := goSortSlice (fun c => c.height) (botCandidates info)
  match candidates.find? fitsCeiling with
  | some c => c.formatID
  | none =>
    match candidates.find? (fun c => decide (c.height ≤ 720)) with
    | some c => c.formatID
    | none =>
      match candidates.getLast? with
      | some c => c.formatID
      | none => ""

/-- **C1**: the bot auto-selection restricts to mp4/video-codec/positive-
height candidates with sizes estimated at 1.15× the raw size
(`botCandidates`/`estimateSize`), and applies the ordered fallback: a
highest-height candidate fitting the 50 MB ceiling; else a highest-height
candidate with height ≤ 720; else a lowest-height candidate; else the
empty string.  The claim's 1080/720/480 example is the witness theorem. -/
theorem pickBestFormat_spec (info : YtdlpInfo) :
    ((∃ c ∈ botCandidates info, fitsCeiling c = true) →
      ∃ c ∈ botCandidates info, fitsCeiling c = true ∧
        pickBestFormat info = c.formatID ∧
        ∀ d ∈ botCandidates info, fitsCeiling d = true → d.height ≤ c.height) ∧
    ((∀ c ∈ botCandidates info, ¬ fitsCeiling c = true) →
      (∃ c ∈ botCandidates info, c.height ≤ 720) →
      ∃ c ∈ botCandidates info, c.height ≤ 720 ∧
        pickBestFormat info = c.formatID ∧
        ∀ d ∈ botCandidates info, d.height ≤ 720 → d.height ≤ c.height) ∧
    ((∀ c ∈ botCandidates info, ¬ fitsCeiling c = true) →
      (∀ c ∈ botCandidates info, ¬ c.height ≤ 720) →
      botCandidates info ≠ [] →
      ∃ c ∈ botCandidates info, pickBestFormat info = c.formatID ∧
        ∀ d ∈ botCandidates info, c.height ≤ d.height) ∧
    (botCandidates info = [] → pickBestFormat info = "") := by
  have hperm := goSortSlice_perm (fun c : BotCandidate => c.height)
    (botCandidates info)
  have hsort := goSortSlice_sorted (fun c : BotCandidate => c.height)
    (botCandidates info)
  refine ⟨?_, ?_, ?_, ?_⟩
  · rintro ⟨c₀, hc₀, hfit₀⟩
    obtain ⟨c, hcfind⟩ : ∃ c,
        (goSortSlice (fun c : BotCandidate => c.height)
          (botCandidates info)).find? fitsCeiling = some c := by
      cases h : (goSortSlice (fun c : BotCandidate => c.height)
          (botCandidates info)).find? fitsCeiling with
      | none =>
        rw [List.find?_eq_none] at h
        exact absurd hfit₀ (h c₀ (hperm.mem_iff.2 hc₀))
      | some c => exact ⟨c, rfl⟩
    obtain ⟨hfit, hmem, hmax⟩ := find?_sorted_max _ fitsCeiling _ c hsort hcfind
    refine ⟨c, hperm.mem_iff.1 hmem, hfit, ?_,
      fun d hd hfd => hmax d (hperm.mem_iff.2 hd) hfd⟩
    simp only [pickBestFormat]
    rw [hcfind]
  · intro hnofit
    rintro ⟨c₀, hc₀, h720₀⟩
    have hfindnone : (goSortSlice (fun c : BotCandidate => c.height)
        (botCandidates info)).find? fitsCeiling = none := by
      rw [List.find?_eq_none]
      intro x hx
      simpa using hnofit x (hperm.mem_iff.1 hx)
    obtain ⟨c, hcfind⟩ : ∃ c,
        (goSortSlice (fun c : BotCandidate => c.height)
          (botCandidates info)).find? (fun c => decide (c.height ≤ 720)) =
          some c := by
      cases h : (goSortSlice (fun c : BotCandidate => c.height)
          (botCandidates info)).find? (fun c => decide (c.height ≤ 720)) with
      | none =>
        rw [List.find?_eq_none] at h
        exact absurd (by simpa using h c₀ (hperm.mem_iff.2 hc₀)) (by simpa using h720₀)
      | some c => exact ⟨c, rfl⟩
    obtain ⟨hp, hmem, hmax⟩ := find?_sorted_max _ _ _ c hsort hcfind
    refine ⟨c, hperm.mem_iff.1 hmem, by simpa using hp, ?_,
      fun d hd hfd => hmax d (hperm.mem_iff.2 hd) (by simpa using hfd)⟩
    simp only [pickBestFormat]
    rw [hfindnone, hcfind]
  · intro hnofit hno720 hne
    have hfindnone : (goSortSlice (fun c : BotCandidate => c.height)
        (botCandidates info)).find? fitsCeiling = none := by
      rw [List.find?_eq_none]
      intro x hx
      simpa using hnofit x (hperm.mem_iff.1 hx)
    have hfindnone2 : (goSortSlice (fun c : BotCandidate => c.height)
        (botCandidates info)).find? (fun c => decide (c.height ≤ 720)) = none := by
      rw [List.find?_eq_none]
      intro x hx
      simpa using hno720 x (hperm.mem_iff.1 hx)
    obtain ⟨c, hclast⟩ : ∃ c,
        (goSortSlice (fun c : BotCandidate => c.height)
          (botCandidates info)).getLast? = some c := by
      cases h : (goSortSlice (fun c : BotCandidate => c.height)
          (botCandidates info)).getLast? with
      | none =>
        rw [List.getLast?_eq_none_iff] at h
        exact absurd (List.Perm.eq_nil (h ▸ hperm.symm)) hne
      | some c => exact ⟨c, rfl⟩
    obtain ⟨hmem, hmin⟩ := getLast?_sorted_min _ _ c hsort hclast
    refine ⟨c, hperm.mem_iff.1 hmem, ?_,
      fun d hd => hmin d (hperm.mem_iff.2 hd)⟩
    simp only [pickBestFormat]
    rw [hfindnone, hfindnone2, hclast]
  · intro hnil
    have hs : goSortSlice (fun c : BotCandidate => c.height)
        (botCandidates info) = [] := by rw [hnil]; rfl
    simp only [pickBestFormat]
    rw [hs]
    rfl

/-- The claim's concrete example: heights 1080/720/480 with raw sizes
80/40/20 MB. -/
def exBotInfo : YtdlpInfo :=
  ⟨"bot", "t", [exVF "f1080" 1080 83886080, exVF "f720" 720 41943040,
    exVF "f480" 480 20971520]⟩

theorem pickBestFormat_spec_witness :
    pickBestFormat exBotInfo = "f720" ∧
    (∃ c ∈ botCandidates exBotInfo, fitsCeiling c = true) := by
  obtain ⟨h1, -, -, -⟩ := pickBestFormat_spec exBotInfo
  have hex : ∃ c ∈ botCandidates exBotInfo, fitsCeiling c = true :=
    ⟨⟨"f720", 720, 48234496⟩, by decide, by decide⟩
  obtain ⟨c, hc, hfit, hpick, hmax⟩ := h1 hex
  have hcand : botCandidates exBotInfo =
      [⟨"f1080", 1080, 96468992⟩, ⟨"f720", 720, 48234496⟩,
        ⟨"f480", 480, 24117248⟩] := by decide
  rw [hcand] at hc hmax
  have h2 := hmax ⟨"f720", 720, 48234496⟩ (by decide) (by decide)
  simp only [List.mem_cons, List.not_mem_nil, or_false] at hc
  rcases hc with rfl | rfl | rfl
  · exact absurd hfit (by decide)
  · exact ⟨hpick, hex⟩
  · exact absurd h2 (by decide)

/-! ## Download Orchestrator — the SSE scan loop of `DownloadVideo` -/

/-- One event of the progress stream (`ProgressEvent`); unset optional
fields are the Go zero values. -/
structure ProgressEvent where
  stage : String
  percent : ℚ
  fileID : String
  ext : String
  errMsg : String
  deriving DecidableEq

/-- A plain stage/percent event. -/
def stageEvent (s : String) (p : ℚ) : ProgressEvent := ⟨s, p, "", "", ""⟩

/-- The terminal success event (`Stage: "done"`). -/
def doneEvent (fileID ext : String) : ProgressEvent := ⟨"done", 0, fileID, ext, ""⟩

/-- A terminal error event (`Stage: "error"`). -/
def errorEvent (msg : String) : ProgressEvent := ⟨"error", 0, "", "", msg⟩

/-- One subprocess output line, given as the results of the four
independent regular-expression matches the scan loop computes on it
(`destinationRe`, `percentRe` with its captured percentage, `mergerRe`,
`extractRe`).  All four may in principle fire on the same line, exactly as
in the Go code. -/
structure ScanLine where
  isDestination : Bool
  percentMatch : Option ℚ
  isMerger : Bool
  isExtract : Bool
  deriving DecidableEq

/-- The body of the scan loop for one line: the updated `downloadCount`
and the events sent, in source order — the destination bump (with the
`downloading_audio` 0% event on the second leg in video mode), the percent
event, the merge marker, the extract marker. -/
def scanLineStep (mode : String) (count : Nat) (l : ScanLine) :
    Nat × List ProgressEvent :=
  let count' := if l.isDestination then count + 1 else count
  let destEvents :=
    if l.isDestination && count' == 2 && mode == "video" then
      [stageEvent "downloading_audio" 0]
    else []
  let pctEvents :=
    match l.percentMatch with
    | some pct =>
      [stageEvent
        (if mode == "audio" || decide (2 ≤ count') then "downloading_audio"
         else "downloading_video") pct]
    | none => []
  let mergeEvents := if l.isMerger then [stageEvent "merging" (-1)] else []
  let extractEvents := if l.isExtract then [stageEvent "converting" (-1)] else []
  (count', destEvents ++ pctEvents ++ mergeEvents ++ extractEvents)

/-- The scan loop (`for scanner.Scan() { ... }`), threading
`downloadCount`. -/
def scanLoop (mode : String) : Nat → List ScanLine → Nat × List ProgressEvent
  | count, [] => (count, [])
  | count, l :: ls =>
    let s := scanLineStep mode count l
    let rest := scanLoop mode s.1 ls
    (rest.1, s.2 ++ rest.2)

/-- The events of a whole scan (`downloadCount` starts at 0). -/
def scanEvents (mode : String) (lines : List ScanLine) : List ProgressEvent :=
  (scanLoop mode 0 lines).2

/-- Closed-form per-line event description used to state C7: `destSoFar`
is the number of destination-marker lines up to and including this one. -/
def scanLineSpec (mode : String) (destSoFar : Nat) (l : ScanLine) :
    List ProgressEvent :=
  (if l.isDestination && destSoFar == 2 && mode == "video" then
      [stageEvent "downloading_audio" 0]
    else []) ++
  (match l.percentMatch with
   | some pct =>
     [stageEvent
       (if mode == "audio" || decide (2 ≤ destSoFar) then "downloading_audio"
        else "downloading_video") pct]
   | none => []) ++
  (if l.isMerger then [stageEvent "merging" (-1)] else []) ++
  (if l.isExtract then [stageEvent "converting" (-1)] else [])

theorem scanLineStep_eq (mode : String) (count : Nat) (l : ScanLine) :
    scanLineStep mode count l =
      (count + (if l.isDestination then 1 else 0),
        scanLineSpec mode (count + (if l.isDestination then 1 else 0)) l) := by
  cases hd : l.isDestination <;> simp [scanLineStep, scanLineSpec, hd]

theorem scanLoop_count (mode : String) (count : Nat) (lines : List ScanLine) :
    (scanLoop mode count lines).1 = count + lines.countP (·.isDestination) := by
  induction lines generalizing count with
  | nil => simp [scanLoop]
  | cons l ls ih =>
    simp only [scanLoop, scanLineStep_eq, ih, List.countP_cons]
    cases l.isDestination <;> simp [Nat.add_assoc, Nat.add_comm]

theorem scanLoop_append (mode : String) (count : Nat) (xs ys : List ScanLine) :
    scanLoop mode count (xs ++ ys) =
      ((scanLoop mode (scanLoop mode count xs).1 ys).1,
        (scanLoop mode count xs).2 ++
          (scanLoop mode (scanLoop mode count xs).1 ys).2) := by
  induction xs generalizing count with
  | nil => simp [scanLoop]
  | cons l ls ih => simp [scanLoop, ih]

/-- **C7**: the scan-loop counter is exactly the number of
destination-marker lines seen so far, and each processed line appends
exactly the events described by `scanLineSpec` at that counter value: the
second destination line in video mode adds `downloading_audio` at 0%; a
percent line adds its extracted percentage at stage `downloading_audio`
when the mode is audio or the leg counter is ≥ 2 and `downloading_video`
otherwise; merge markers add `merging` at −1; extract markers add
`converting` at −1. -/
theorem scanEvents_spec (mode : String) :
    (∀ lines : List ScanLine,
      (scanLoop mode 0 lines).1 = lines.countP (·.isDestination)) ∧
    (∀ (lines : List ScanLine) (l : ScanLine),
      scanEvents mode (lines ++ [l]) =
        scanEvents mode lines ++
          scanLineSpec mode ((lines ++ [l]).countP (·.isDestination)) l) := by
  constructor
  · intro lines
    rw [scanLoop_count]
    omega
  · intro lines l
    unfold scanEvents
    rw [scanLoop_append]
    simp only [scanLoop, scanLineStep_eq, scanLoop_count, List.append_nil,
      List.countP_append, List.countP_cons, List.countP_nil]
    cases l.isDestination <;> simp

/-- The output extension: `"mp4"` unless audio mode switches it to
`"mp3"`. -/
def webExt (mode : String) : String := if mode == "audio" then "mp3" else "mp4"

/-- `if mode == "" { mode = "video" }` — the defaulting at the top of
`GetVideoInfo` and `DownloadVideo`. -/
def effectiveMode (mode : String) : String := if mode == "" then "video" else mode

/-- The stage event sent before the subprocess is spawned. -/
def initialEvent (mode : String) : ProgressEvent :=
  if mode == "audio" then stageEvent "downloading_audio" 0
  else stageEvent "downloading_video" 0

/-- The full event stream `DownloadVideo` sends on a run whose subprocess
was started: the initial stage event, the scan-loop events, and the
terminal part decided after `cmd.Wait()` — `done` with the job's file id
and extension on a zero exit status (`exitOk`); nothing when the wait
failed under a cancelled request context (`cancelled`, i.e.
`ctx.Err() != nil`); the generic `"Download failed"` error otherwise. -/
def downloadVideoEvents (rawMode fileID : String) (lines : List ScanLine)
    (exitOk cancelled : Bool) : List ProgressEvent :=
  let mode := effectiveMode rawMode
  initialEvent mode :: (scanEvents mode lines ++
    (if exitOk then [doneEvent fileID (webExt mode)]
     else if cancelled then [] else [errorEvent "Download failed"]))

/-- A terminal event ends the stream: stage `done` or `error`. -/
def isTerminal (e : ProgressEvent) : Bool := e.stage == "done" || e.stage == "error"

theorem eq_of_mem_ite_singleton {α : Type} {c : Prop} [Decidable c] {e x : α}
    (h : e ∈ if c then [x] else ([] : List α)) : e = x := by
  split at h
  · exact List.mem_singleton.1 h
  · exact absurd h (List.not_mem_nil e)

theorem isTerminal_stageEvent (s : String) (p : ℚ) :
    isTerminal (stageEvent s p) = (s == "done" || s == "error") := rfl

theorem scanLineStep_not_terminal (mode : String) (count : Nat) (l : ScanLine)
    (e : ProgressEvent) (he : e ∈ (scanLineStep mode count l).2) :
    isTerminal e = false := by
  simp only [scanLineStep, List.mem_append] at he
  rcases he with ((h | h) | h) | h
  · rw [eq_of_mem_ite_singleton h]
    rfl
  · revert h
    cases l.percentMatch with
    | none => exact fun h => absurd h (List.not_mem_nil e)
    | some pct =>
      intro h
      rw [List.mem_singleton.1 h, isTerminal_stageEvent]
      split <;> split <;> rfl
  · rw [eq_of_mem_ite_singleton h]
    rfl
  · rw [eq_of_mem_ite_singleton h]
    rfl

theorem scanLoop_not_terminal (mode : String) (count : Nat)
    (lines : List ScanLine) (e : ProgressEvent)
    (he : e ∈ (scanLoop mode count lines).2) : isTerminal e = false := by
  induction lines generalizing count with
  | nil => exact absurd he (List.not_mem_nil e)
  | cons l ls ih =>
    simp only [scanLoop, List.mem_append] at he
    rcases he with h | h
    · exact scanLineStep_not_terminal mode count l e h
    · exact ih _ h

/-- **C2**: the terminal events on the stream of a started run are exactly
one `done` (carrying the file id and extension) on a zero exit; exactly
one generic `"Download failed"` error on a non-zero exit without
cancellation; and none when the exit happened under a cancelled context —
never two terminal events. -/
theorem downloadVideo_terminal_events (rawMode fileID : String)
    (lines : List ScanLine) (exitOk cancelled : Bool) :
    (downloadVideoEvents rawMode fileID lines exitOk cancelled).filter
        isTerminal =
      (if exitOk then [doneEvent fileID (webExt (effectiveMode rawMode))]
       else if cancelled then [] else [errorEvent "Download failed"]) ∧
    ((downloadVideoEvents rawMode fileID lines exitOk cancelled).filter
        isTerminal).length ≤ 1 := by
  have hinit : isTerminal (initialEvent (effectiveMode rawMode)) = false := by
    unfold initialEvent
    split <;> rfl
  have hscan : (scanEvents (effectiveMode rawMode) lines).filter isTerminal
      = [] := by
    rw [List.filter_eq_nil_iff]
    intro e he
    simp [scanLoop_not_terminal _ 0 lines e he]
  have hfilter : (downloadVideoEvents rawMode fileID lines exitOk
      cancelled).filter isTerminal =
      (if exitOk then [doneEvent fileID (webExt (effectiveMode rawMode))]
       else if cancelled then [] else [errorEvent "Download failed"]) := by
    unfold downloadVideoEvents
    rw [List.filter_cons_of_neg (by simpa using hinit), List.filter_append,
      hscan, List.nil_append]
    split
    · rw [List.filter_cons_of_pos (by rfl), List.filter_nil]
    · split
      · rfl
      · rw [List.filter_cons_of_pos (by rfl), List.filter_nil]
  refine ⟨hfilter, ?_⟩
  rw [hfilter]
  split
  · simp
  · split <;> simp

/-- `fmt.Sprintf("%s+bestaudio[ext=m4a]/%s+bestaudio/%s", ...)` — the
video-mode format-selection expression. -/
def videoFormatSelector (formatID : String) : String :=
  formatID ++ "+bestaudio[ext=m4a]/" ++ formatID ++ "+bestaudio/" ++ formatID

/-- The `yt-dlp` argument list `DownloadVideo` builds after defaulting the
mode: audio mode extracts mp3 through an `.%(ext)s` output template, any
other mode merges with best audio into a fixed `.mp4` output path. -/
def downloadVideoArgs (rawMode fileID formatID videoURL tmpDir : String) :
    List String :=
  let mode := effectiveMode rawMode
  if mode == "audio" then
    ["--newline", "--progress", "--no-warnings", "--no-part",
      "-f", formatID, "-x", "--audio-format", "mp3",
      "-o", tmpDir ++ "/" ++ fileID ++ ".%(ext)s", videoURL]
  else
    ["--newline", "--progress", "--no-warnings", "--no-part",
      "-f", videoFormatSelector formatID, "--merge-output-format", "mp4",
      "-o", tmpDir ++ "/" ++ fileID ++ ".mp4", videoURL]

/-- `GetVideoInfo` after defaulting: audio mode lists the audio formats,
any other mode (in particular the default) lists the video formats. -/
def getVideoInfoFormats (rawMode : String) (info : YtdlpInfo) :
    List FormatInfo :=
  if effectiveMode rawMode == "audio" then buildAudioFormats info
  else buildVideoFormats info

/-- **C10**: an absent/empty `mode` is treated exactly as mode `"video"`
at the public interface: `GetVideoInfo` returns the video-mode format
list, and `DownloadVideo` builds the video-mode argument list (merge to
mp4, `.mp4` output path) and emits the same event stream — for every
request the empty-mode run is identical to the `"video"`-mode run. -/
theorem emptyMode_eq_videoMode (info : YtdlpInfo)
    (fileID formatID videoURL tmpDir : String) (lines : List ScanLine)
    (exitOk cancelled : Bool) :
    getVideoInfoFormats "" info = getVideoInfoFormats "video" info ∧
    downloadVideoArgs "" fileID formatID videoURL tmpDir =
      downloadVideoArgs "video" fileID formatID videoURL tmpDir ∧
    downloadVideoEvents "" fileID lines exitOk cancelled =
      downloadVideoEvents "video" fileID lines exitOk cancelled :=
  ⟨rfl, rfl, rfl⟩

/-! ## Bot Gateway — owner registration (prologue of `handleMessage`) -/

/-- What the guarded block decides for a message: `claim` and `proceed`
continue into the message pipeline; `drop` returns immediately, before any
reply of any kind is constructed or sent. -/
inductive OwnerOutcome
  | claim
  | drop
  | proceed
  deriving DecidableEq

/-- The `ownerMu`-guarded block at the top of `handleMessage`.  The mutex
linearizes the concurrent executions of the block, so it is modelled as a
sequential transition on the shared `ownerID` (0 = unset).  Returns the
new `ownerID`, whether `saveOwnerToEnv` (persistence) was invoked, and the
outcome for this message. -/
def ownerCheck (ownerID userID : Int) : Int × Bool × OwnerOutcome :=
  if ownerID = 0 then (userID, true, OwnerOutcome.claim)
  else if ownerID ≠ userID then (ownerID, false, OwnerOutcome.drop)
  else (ownerID, false, OwnerOutcome.proceed)

/-- The stored owner id after a sequence of inbound messages. -/
def ownerAfter (ownerID : Int) (senders : List Int) : Int :=
  senders.foldl (fun o u => (ownerCheck o u).1) ownerID

theorem ownerAfter_ne_zero (senders : List Int) :
    ∀ o : Int, o ≠ 0 → ownerAfter o senders = o := by
  induction senders with
  | nil => exact fun o _ => rfl
  | cons u us ih =>
    intro o ho
    have hstep : (ownerCheck o u).1 = o := by
      unfold ownerCheck
      rw [if_neg ho]
      split <;> rfl
    simp only [ownerAfter, List.foldl_cons, hstep]
    exact ih o ho

/-- **C8**: the first message arriving while `ownerID` is unset claims
ownership for its sender and persists it; once a (nonzero) owner is
stored, a message from a different sender is dropped — the handler
returns before any reply — and a message from the stored owner proceeds
to normal handling; and no sequence of subsequent messages ever changes a
stored (nonzero) owner. -/
theorem ownerRegistration_spec :
    (∀ u : Int, ownerCheck 0 u = (u, true, OwnerOutcome.claim)) ∧
    (∀ o u : Int, o ≠ 0 → u ≠ o →
      ownerCheck o u = (o, false, OwnerOutcome.drop)) ∧
    (∀ o : Int, o ≠ 0 → ownerCheck o o = (o, false, OwnerOutcome.proceed)) ∧
    (∀ o : Int, o ≠ 0 → ∀ senders : List Int, ownerAfter o senders = o) := by
  refine ⟨fun u => rfl, ?_, ?_, ?_⟩
  · intro o u ho hu
    unfold ownerCheck
    rw [if_neg ho, if_pos (Ne.symm hu)]
  · intro o ho
    unfold ownerCheck
    rw [if_neg ho, if_neg (by simp)]
  · exact fun o ho senders => ownerAfter_ne_zero senders o ho

theorem ownerRegistration_spec_witness :
    ownerCheck 0 7 = (7, true, OwnerOutcome.claim) ∧
    ownerCheck 7 5 = (7, false, OwnerOutcome.drop) ∧
    ownerCheck 7 7 = (7, false, OwnerOutcome.proceed) ∧
    ownerAfter 7 [5, 7, 9] = 7 := by
  obtain ⟨h1, h2, h3, h4⟩ := ownerRegistration_spec
  exact ⟨h1 7, h2 7 5 (by decide) (by decide), h3 7 (by decide),
    h4 7 (by decide) [5, 7, 9]⟩

/-! ## Bot post-download size check (`handleMessage` after `cmd.Run()`) -/

/-- The bot's reply decision after a successful subprocess run. -/
inductive BotReply
  | errorReply (text : String)
  | sendVideo
  deriving DecidableEq

/-- `%.1f` of `size/(1024*1024)`, in tenths of an MB:
`⌊size·10/1048576 + 1/2⌋` as a flooring integer division.  (`%.1f` rounds
half to even; this rounds half up — they differ only on exact halves of a
tenth, which no claim depends on.) -/
def mbTenths (size : Int) : Int :=
  Int.fdiv (2 * size * 10 + 1048576) (2 * 1048576)

/-- The decimal rendering `%.1f` produces for nonnegative sizes. -/
def mbString (size : Int) : String :=
  toString (mbTenths size / 10) ++ "." ++ toString (mbTenths size % 10)

/-- `fmt.Sprintf("File too large (%.1f MB). Telegram limit is 50 MB.", ...)`. -/
def fileTooLargeMsg (size : Int) : String :=
  "File too large (" ++ mbString size ++ " MB). Telegram limit is 50 MB."

/-- The post-download check of the bot's `handleMessage`:
`stat, err := os.Stat(tmpPath)` followed by
`if err != nil || stat.Size() > maxFileSize { sendError(fmt.Sprintf(..., float64(stat.Size())/(1024*1024))); return }`.
When the output file is missing (`stat = none`), the Go code enters the
branch (the disjunction short-circuits on `err != nil`) but then evaluates
`stat.Size()` while formatting the error text — a nil-interface
dereference that panics, crashing the handler without sending any reply.
The panic is modelled as `Except.error ()`. -/
def botPostDownload (stat : Option Int) : Except Unit BotReply :=
  match stat with
  | none => Except.error ()
  | some size =>
    if maxFileSize < size then
      Except.ok (BotReply.errorReply (fileTooLargeMsg size))
    else
      Except.ok BotReply.sendVideo

/-- **C4** (records the code's actual behaviour, which contradicts the
claim): on the file-missing post-download state the bot panics on a nil
`os.FileInfo` instead of sending the claimed error reply; on an oversized
file it does send the size-exceeded reply, whose text carries the measured
size in MB (third conjunct: a 60 MB file yields "60.0" in the text). -/
theorem botPostDownload_panics_on_missing_file :
    botPostDownload none = Except.error () ∧
    (∀ size : Int, maxFileSize < size →
      botPostDownload (some size) =
        Except.ok (BotReply.errorReply (fileTooLargeMsg size))) ∧
    fileTooLargeMsg 62914560 =
      "File too large (60.0 MB). Telegram limit is 50 MB." := by
  refine ⟨rfl, ?_, by decide⟩
  intro size hs
  simp [botPostDownload, hs]

theorem botPostDownload_panics_on_missing_file_witness :
    botPostDownload none = Except.error () ∧
    botPostDownload (some 62914560) =
      Except.ok (BotReply.errorReply (fileTooLargeMsg 62914560)) := by
  obtain ⟨h1, h2, -⟩ := botPostDownload_panics_on_missing_file
  exact ⟨h1, h2 62914560 (by decide)⟩

/-! ## Retained-file fetch (`ServeFile`) -/

/-- The observable outcome of `ServeFile`: the "Invalid file ID" error
response (HTTP 400, malformed id), the "File not found or expired" error
response (HTTP 404), or a served file with its extension and content
type. -/
inductive ServeResult
  | invalidId
  | notFound
  | served (ext : String) (mime : String)
  deriving DecidableEq

/-- `ServeFile`: `validId` abstracts `uuid.Parse(id) == nil`, and
`fileExists ext` abstracts `os.Stat(os.TempDir()/id.ext) == nil`.  A
malformed id is rejected; otherwise the extensions are tried in the fixed
order mp4 then mp3 and the first existing file is served with its content
type; otherwise the not-found response.  Both error outcomes serve no
file — the spec's single "not found" result covers them both. -/
def serveFile (validId : Bool) (fileExists : String → Bool) : ServeResult :=
  if !validId then ServeResult.invalidId
  else
    match ["mp4", "mp3"].find? fileExists with
    | some ext =>
      ServeResult.served ext (if ext == "mp3" then "audio/mpeg" else "video/mp4")
    | none => ServeResult.notFound

/-- **C9**: the fetch tries the video extension (mp4) first, then the
audio extension (mp3), and serves the first existing file; an id of
unknown (non-UUID) format, or a valid id with neither file on disk, never
serves a file — it answers with an error response (the invalid-id
response resp. the not-found response, the two outcomes the spec folds
into its "not found" result). -/
theorem serveFile_spec (validId : Bool) (fileExists : String → Bool) :
    (validId = true → fileExists "mp4" = true →
      serveFile validId fileExists = ServeResult.served "mp4" "video/mp4") ∧
    (validId = true → fileExists "mp4" = false → fileExists "mp3" = true →
      serveFile validId fileExists = ServeResult.served "mp3" "audio/mpeg") ∧
    (validId = false → serveFile validId fileExists = ServeResult.invalidId) ∧
    (validId = true → fileExists "mp4" = false → fileExists "mp3" = false →
      serveFile validId fileExists = ServeResult.notFound) ∧
    ((validId = false ∨ (fileExists "mp4" = false ∧ fileExists "mp3" = false)) →
      ∀ ext mime, serveFile validId fileExists ≠ ServeResult.served ext mime) := by
  have h400 : validId = false → serveFile validId fileExists =
      ServeResult.invalidId := by
    rintro rfl
    rfl
  have hmp4 : validId = true → fileExists "mp4" = true →
      serveFile validId fileExists = ServeResult.served "mp4" "video/mp4" := by
    rintro rfl h4
    unfold serveFile
    rw [List.find?_cons_of_pos _ h4]
    rfl
  have hmp3 : validId = true → fileExists "mp4" = false →
      fileExists "mp3" = true →
      serveFile validId fileExists = ServeResult.served "mp3" "audio/mpeg" := by
    rintro rfl h4 h3
    unfold serveFile
    rw [List.find?_cons_of_neg _ (by simp [h4]), List.find?_cons_of_pos _ h3]
    rfl
  have h404 : validId = true → fileExists "mp4" = false →
      fileExists "mp3" = false →
      serveFile validId fileExists = ServeResult.notFound := by
    rintro rfl h4 h3
    unfold serveFile
    rw [List.find?_cons_of_neg _ (by simp [h4]),
      List.find?_cons_of_neg _ (by simp [h3])]
    rfl
  refine ⟨hmp4, hmp3, h400, h404, ?_⟩
  intro h ext mime
  rcases h with hv | ⟨h4, h3⟩
  · rw [h400 hv]
    exact fun habs => ServeResult.noConfusion habs
  · rcases Bool.eq_false_or_eq_true validId with hv | hv
    · rw [h404 hv h4 h3]
      exact fun habs => ServeResult.noConfusion habs
    · rw [h400 hv]
      exact fun habs => ServeResult.noConfusion habs

theorem serveFile_spec_witness :
    serveFile true (fun e => e == "mp3") = ServeResult.served "mp3" "audio/mpeg" ∧
    serveFile false (fun _ => true) = ServeResult.invalidId ∧
    serveFile true (fun _ => false) = ServeResult.notFound := by
  obtain ⟨-, hmp3, -, -, -⟩ := serveFile_spec true (fun e => e == "mp3")
  obtain ⟨-, -, hinv, -, -⟩ := serveFile_spec false (fun _ => true)
  obtain ⟨-, -, -, hnf, -⟩ := serveFile_spec true (fun _ => false)
  exact ⟨hmp3 rfl (by decide) (by decide), hinv rfl,
    hnf rfl (by decide) (by decide)⟩

/-! ## The Go runtime's actual sort: pdqsort (`sort.Slice`, Go ≥ 1.19)

An executable embedding of the algorithm behind `sort.Slice`
(`src/sort/zsortfunc.go`), used to exhibit the library's real behaviour on
equal keys, which the `sort.Slice` contract leaves unspecified.  Arrays
are lists indexed by `lget`/`lswap`; every loop carries explicit fuel and
every call site passes fuel strictly larger than the loop's iteration
bound, so the fuel never runs out. -/

/-- Read index `i` (Go array read; all embedded reads are in bounds). -/
def lget {α : Type} [Inhabited α] (l : List α) (i : Nat) : α := l.getD i default

/-- `data.Swap(i, j)`. -/
def lswap {α : Type} [Inhabited α] (l : List α) (i j : Nat) : List α :=
  (l.set i (lget l j)).set j (lget l i)

/-- Inner loop of `insertionSortfunc`: bubble index `j` left while it
sorts before its left neighbour. -/
def insInner {α : Type} [Inhabited α] (less : α → α → Bool) :
    Nat → List α → Nat → Nat → List α
  | 0, l, _, _ => l
  | fuel + 1, l, j, a =>
    if a < j && less (lget l j) (lget l (j - 1)) then
      insInner less fuel (lswap l j (j - 1)) (j - 1) a
    else l

/-- Outer loop of `insertionSortfunc` over `i := a+1; i < b`. -/
def insOuter {α : Type} [Inhabited α] (less : α → α → Bool) :
    Nat → List α → Nat → Nat → Nat → List α
  | 0, l, _, _, _ => l
  | fuel + 1, l, i, a, b =>
    if i < b then insOuter less fuel (insInner less b l i a) (i + 1) a b
    else l

/-- `insertionSortfunc(data, a, b)`. -/
def insertionSortRangeGo {α : Type} [Inhabited α] (less : α → α → Bool)
    (l : List α) (a b : Nat) : List α :=
  insOuter less (b + 1) l (a + 1) a b

/-- `siftDownfunc(data, root, hi, first)`. -/
def siftDownGo {α : Type} [Inhabited α] (less : α → α → Bool) :
    Nat → List α → Nat → Nat → Nat → List α
  | 0, l, _, _, _ => l
  | fuel + 1, l, root, hi, first =>
    let child := 2 * root + 1
    if hi ≤ child then l
    else
      let child :=
        if child + 1 < hi &&
            less (lget l (first + child)) (lget l (first + child + 1)) then
          child + 1
        else child
      if !(less (lget l (first + root)) (lget l (first + child))) then l
      else siftDownGo less fuel (lswap l (first + root) (first + child)) child hi first

/-- Heap construction: `for i := (hi-1)/2; i >= 0; i--`. -/
def heapBuild {α : Type} [Inhabited α] (less : α → α → Bool) :
    Nat → List α → Nat → Nat → List α
  | 0, l, _, _ => l
  | k + 1, l, hi, first =>
    heapBuild less k (siftDownGo less (hi + 2) l k hi first) hi first

/-- Heap extraction: `for i := hi - 1; i >= 0; i--`. -/
def heapExtract {α : Type} [Inhabited α] (less : α → α → Bool) :
    Nat → List α → Nat → List α
  | 0, l, _ => l
  | k + 1, l, first =>
    heapExtract less k
      (siftDownGo less (k + 2) (lswap l first (first + k)) 0 k first) first

/-- `heapSortfunc(data, a, b)`. -/
def heapSortRangeGo {α : Type} [Inhabited α] (less : α → α → Bool)
    (l : List α) (a b : Nat) : List α :=
  heapExtract less (b - a) (heapBuild less ((b - a - 1) / 2 + 1) l (b - a) a) a

/-- The hint returned by pivot selection. -/
inductive SortHint
  | increasing
  | decreasing
  | unknown
  deriving DecidableEq, BEq

/-- `order2func`: order two indices by their elements, counting swaps. -/
def order2Go {α : Type} [Inhabited α] (less : α → α → Bool) (l : List α)
    (a b swaps : Nat) : Nat × Nat × Nat :=
  if less (lget l b) (lget l a) then (b, a, swaps + 1) else (a, b, swaps)

/-- `medianfunc`: the index of the median of three elements. -/
def medianGo {α : Type} [Inhabited α] (less : α → α → Bool) (l : List α)
    (a b c swaps : Nat) : Nat × Nat :=
  let o1 := order2Go less l a b swaps
  let o2 := order2Go less l o1.2.1 c o1.2.2
  let o3 := order2Go less l o1.1 o2.1 o2.2.2
  (o3.2.1, o3.2.2)

/-- `medianAdjacentfunc`. -/
def medianAdjGo {α : Type} [Inhabited α] (less : α → α → Bool) (l : List α)
    (i swaps : Nat) : Nat × Nat :=
  medianGo less l (i - 1) i (i + 1) swaps

/-- `choosePivotfunc`: median (or ninther for long spans) with a
sortedness hint from the swap count (0 swaps ⇒ increasing, all 12 ⇒
decreasing). -/
def choosePivotGo {α : Type} [Inhabited α] (less : α → α → Bool) (l : List α)
    (a b : Nat) : Nat × SortHint :=
  let length := b - a
  let i := a + length / 4 * 1
  let j := a + length / 4 * 2
  let k := a + length / 4 * 3
  let m : Nat × Nat :=
    if 8 ≤ length then
      if 50 ≤ length then
        let m1 := medianAdjGo less l i 0
        let m2 := medianAdjGo less l j m1.2
        let m3 := medianAdjGo less l k m2.2
        medianGo less l m1.1 m2.1 m3.1 m3.2
      else medianGo less l i j k 0
    else (j, 0)
  (m.1,
    if m.2 = 0 then SortHint.increasing
    else if m.2 = 12 then SortHint.decreasing
    else SortHint.unknown)

/-- `reverseRangefunc` inner loop. -/
def revRangeGo {α : Type} [Inhabited α] :
    Nat → List α → Nat → Nat → List α
  | 0, l, _, _ => l
  | fuel + 1, l, i, j =>
    if i < j then revRangeGo fuel (lswap l i j) (i + 1) (j - 1) else l

/-- `reverseRangefunc(data, a, b)`. -/
def reverseRangeGo {α : Type} [Inhabited α] (l : List α) (a b : Nat) : List α :=
  revRangeGo (b + 1) l a (b - 1)

/-- One step of the `xorshift` generator (`uint64`). -/
def xorshiftNext (r : Nat) : Nat :=
  let r1 := (r ^^^ (r <<< 13)) % (2 ^ 64)
  let r2 := (r1 ^^^ (r1 >>> 17)) % (2 ^ 64)
  (r2 ^^^ (r2 <<< 5)) % (2 ^ 64)

/-- `bits.Len`. -/
def bitsLen (n : Nat) : Nat := if n = 0 then 0 else Nat.log2 n + 1

/-- `nextPowerOfTwo`. -/
def nextPowerOfTwo (n : Nat) : Nat := 2 ^ bitsLen n

/-- `breakPatternsfunc`: scramble three elements around the midpoint with
the xorshift generator seeded by the span length. -/
def breakPatternsGo {α : Type} [Inhabited α] (l : List α) (a b : Nat) :
    List α :=
  let length := b - a
  if 8 ≤ length then
    let modulus := nextPowerOfTwo length
    let idx := a + (length / 4) * 2 - 1
    let r0 := xorshiftNext length
    let o0 := r0 % modulus
    let o0 := if length ≤ o0 then o0 - length else o0
    let l0 := lswap l (idx - 1) (a + o0)
    let r1 := xorshiftNext r0
    let o1 := r1 % modulus
    let o1 := if length ≤ o1 then o1 - length else o1
    let l1 := lswap l0 idx (a + o1)
    let r2 := xorshiftNext r1
    let o2 := r2 % modulus
    let o2 := if length ≤ o2 then o2 - length else o2
    lswap l1 (idx + 1) (a + o2)
  else l

/-- `partialInsertionSortfunc`: advance past the sorted prefix. -/
def pisAdvance {α : Type} [Inhabited α] (less : α → α → Bool) :
    Nat → List α → Nat → Nat → Nat
  | 0, _, i, _ => i
  | fuel + 1, l, i, b =>
    if i < b && !(less (lget l i) (lget l (i - 1))) then
      pisAdvance less fuel l (i + 1) b
    else i

/-- `partialInsertionSortfunc`: shift the smaller element left. -/
def pisShiftLeft {α : Type} [Inhabited α] (less : α → α → Bool) :
    Nat → List α → Nat → List α
  | 0, l, _ => l
  | fuel + 1, l, j =>
    if 1 ≤ j && less (lget l j) (lget l (j - 1)) then
      pisShiftLeft less fuel (lswap l j (j - 1)) (j - 1)
    else l

/-- `partialInsertionSortfunc`: shift the greater element right. -/
def pisShiftRight {α : Type} [Inhabited α] (less : α → α → Bool) :
    Nat → List α → Nat → Nat → List α
  | 0, l, _, _ => l
  | fuel + 1, l, j, b =>
    if j < b && less (lget l j) (lget l (j - 1)) then
      pisShiftRight less fuel (lswap l j (j - 1)) (j + 1) b
    else l

/-- The `maxSteps = 5` loop of `partialInsertionSortfunc`; returns the
data and whether the span ended up sorted. -/
def pisLoop {α : Type} [Inhabited α] (less : α → α → Bool) :
    Nat → List α → Nat → Nat → Nat → List α × Bool
  | 0, l, _, _, _ => (l, false)
  | fuel + 1, l, i, a, b =>
    let i := pisAdvance less (b + 1) l i b
    if i = b then (l, true)
    else if b - a < 50 then (l, false)
    else
      let l := lswap l i (i - 1)
      let l := if 2 ≤ i - a then pisShiftLeft less (i + 1) l (i - 1) else l
      let l := if 2 ≤ b - i then pisShiftRight less (b + 1) l (i + 1) b else l
      pisLoop less fuel l i a b

/-- `partialInsertionSortfunc(data, a, b)`. -/
def partialInsertionSortGo {α : Type} [Inhabited α] (less : α → α → Bool)
    (l : List α) (a b : Nat) : List α × Bool :=
  pisLoop less 5 l (a + 1) a b

/-- `partitionfunc`: advance `i` over elements before the pivot. -/
def partScanI {α : Type} [Inhabited α] (less : α → α → Bool) :
    Nat → List α → Nat → Nat → Nat → Nat
  | 0, _, i, _, _ => i
  | fuel + 1, l, i, j, a =>
    if i ≤ j && less (lget l i) (lget l a) then partScanI less fuel l (i + 1) j a
    else i

/-- `partitionfunc`: retreat `j` over elements not before the pivot. -/
def partScanJ {α : Type} [Inhabited α] (less : α → α → Bool) :
    Nat → List α → Nat → Nat → Nat → Nat
  | 0, _, _, j, _ => j
  | fuel + 1, l, i, j, a =>
    if i ≤ j && !(less (lget l j) (lget l a)) then partScanJ less fuel l i (j - 1) a
    else j

/-- The swap loop of `partitionfunc`. -/
def partLoop {α : Type} [Inhabited α] (less : α → α → Bool) :
    Nat → List α → Nat → Nat → Nat → List α × Nat × Nat
  | 0, l, i, j, _ => (l, i, j)
  | fuel + 1, l, i, j, a =>
    let i := partScanI less (j + 2) l i j a
    let j := partScanJ less (j + 2) l i j a
    if j < i then (l, i, j)
    else partLoop less fuel (lswap l i j) (i + 1) (j - 1) a

/-- `partitionfunc(data, a, b, pivot)`: returns the data, the final pivot
position, and whether the span was already partitioned. -/
def partitionGo {α : Type} [Inhabited α] (less : α → α → Bool) (l : List α)
    (a b pivot : Nat) : List α × Nat × Bool :=
  let l := lswap l a pivot
  let i := partScanI less (b + 2) l (a + 1) (b - 1) a
  let j := partScanJ less (b + 2) l i (b - 1) a
  if j < i then (lswap l j a, j, true)
  else
    let l := lswap l i j
    let r := partLoop less (b + 1) l (i + 1) (j - 1) a
    (lswap r.1 r.2.2 a, r.2.2, false)

/-- `partitionEqualfunc`: advance `i` over elements equal to the pivot. -/
def partEqScanI {α : Type} [Inhabited α] (less : α → α → Bool) :
    Nat → List α → Nat → Nat → Nat → Nat
  | 0, _, i, _, _ => i
  | fuel + 1, l, i, j, a =>
    if i ≤ j && !(less (lget l a) (lget l i)) then partEqScanI less fuel l (i + 1) j a
    else i

/-- `partitionEqualfunc`: retreat `j` over elements above the pivot. -/
def partEqScanJ {α : Type} [Inhabited α] (less : α → α → Bool) :
    Nat → List α → Nat → Nat → Nat → Nat
  | 0, _, _, j, _ => j
  | fuel + 1, l, i, j, a =>
    if i ≤ j && less (lget l a) (lget l j) then partEqScanJ less fuel l i (j - 1) a
    else j

/-- The swap loop of `partitionEqualfunc`; returns the data and the new
left bound. -/
def partEqLoop {α : Type} [Inhabited α] (less : α → α → Bool) :
    Nat → List α → Nat → Nat → Nat → List α × Nat
  | 0, l, i, _, _ => (l, i)
  | fuel + 1, l, i, j, a =>
    let i := partEqScanI less (j + 2) l i j a
    let j := partEqScanJ less (j + 2) l i j a
    if j < i then (l, i)
    else partEqLoop less fuel (lswap l i j) (i + 1) (j - 1) a

/-- `partitionEqualfunc(data, a, b, pivot)`. -/
def partitionEqualGo {α : Type} [Inhabited α] (less : α → α → Bool)
    (l : List α) (a b pivot : Nat) : List α × Nat :=
  let l := lswap l a pivot
  partEqLoop less (b + 1) l (a + 1) (b - 1) a

/-- `pdqsortfunc(data, a, b, limit)` with its loop-carried
`wasBalanced`/`wasPartitioned` state made explicit; the loop itself is the
tail recursion (with fresh `true`/`true` state on the recursive call into
the smaller side, exactly as in the Go code, which re-enters the function
there). -/
def pdqsortGo {α : Type} [Inhabited α] (less : α → α → Bool) :
    Nat → List α → Nat → Nat → Nat → Bool → Bool → List α
  | 0, l, _, _, _, _, _ => l
  | fuel + 1, l, a, b, limit, wasBalanced, wasPartitioned =>
    if b - a ≤ 12 then insertionSortRangeGo less l a b
    else if limit = 0 then heapSortRangeGo less l a b
    else
      let l := if !wasBalanced then breakPatternsGo l a b else l
      let limit := if !wasBalanced then limit - 1 else limit
      let pv := choosePivotGo less l a b
      let l := if pv.2 == SortHint.decreasing then reverseRangeGo l a b else l
      let pivot := if pv.2 == SortHint.decreasing then (b - 1) - (pv.1 - a) else pv.1
      let hint := if pv.2 == SortHint.decreasing then SortHint.increasing else pv.2
      let pres :=
        if wasBalanced && wasPartitioned && (hint == SortHint.increasing) then
          partialInsertionSortGo less l a b
        else (l, false)
      if pres.2 then pres.1
      else
        let l := pres.1
        if decide (0 < a) && !(less (lget l (a - 1)) (lget l pivot)) then
          let pe := partitionEqualGo less l a b pivot
          pdqsortGo less fuel pe.1 pe.2 b limit wasBalanced wasPartitioned
        else
          let pr := partitionGo less l a b pivot
          let mid := pr.2.1
          let leftLen := mid - a
          let rightLen := b - mid
          let balanced := decide (min leftLen rightLen ≥ (b - a) / 8)
          if leftLen < rightLen then
            pdqsortGo less fuel
              (pdqsortGo less fuel pr.1 a mid limit true true)
              (mid + 1) b limit balanced pr.2.2
          else
            pdqsortGo less fuel
              (pdqsortGo less fuel pr.1 (mid + 1) b limit true true)
              a mid limit balanced pr.2.2

/-- `sort.Slice(l, less)` as the Go runtime executes it:
`pdqsortfunc(data, 0, n, bits.Len(n))`. -/
def sortSliceGo {α : Type} [Inhabited α] (less : α → α → Bool) (l : List α) :
    List α :=
  pdqsortGo less (2 * l.length + 4) l 0 l.length (bitsLen l.length) true true

instance : Inhabited YtdlpFormat := ⟨⟨"", "", 0, 0, 0, "", "", 0⟩⟩

/-- `buildVideoFormats` with `sort.Slice` realized by the Go runtime's
actual algorithm (`sortSliceGo`) instead of the stable contract model;
the comparator is the same `less i j := data[i].Height > data[j].Height`. -/
def buildVideoFormatsPdq (info : YtdlpInfo) : List FormatInfo :=
  let videoFormats := info.formats.filter videoKeep
  let sorted := sortSliceGo (fun x y => decide (y.height < x.height)) videoFormats
  let unique := dedupBy (fun f => f.height) sorted
  (truncate5 unique).map mkVideoEntry

/-- Thirteen kept candidates; the two height-450 candidates are `"a"`
(input position 5) and `"b"` (input position 9). -/
def ex13Info : YtdlpInfo :=
  ⟨"pdq", "t",
    [exVF "f1000" 1000 0, exVF "f900" 900 0, exVF "f800" 800 0,
     exVF "f400a" 400 0, exVF "f700" 700 0, exVF "a" 450 0,
     exVF "f700b" 700 0, exVF "f400b" 400 0, exVF "f400c" 400 0,
     exVF "b" 450 0, exVF "f900b" 900 0, exVF "f400d" 400 0,
     exVF "f800b" 800 0]⟩

/-- **C5 (counterexample)**: on this 13-candidate list the first
height-450 occurrence among the kept candidates is `"a"` (position 5),
yet the video Format Selector retains `"b"` (position 9): the span
exceeds the sort's insertion-sort regime, pivot selection picks the
height-450 candidate `"b"` and the partition moves it in front of `"a"`,
so the sort does *not* break the equal-height tie by source order and the
entry that appears in the output is the later occurrence. -/
theorem buildVideoFormatsPdq_counterexample :
    ((ex13Info.formats.filter videoKeep).find?
        (fun f => decide (f.height = 450))).map (fun f => f.formatID) =
      some "a" ∧
    (buildVideoFormatsPdq ex13Info).map (fun e => e.formatID) =
      ["f1000", "f900", "f800", "f700", "b"] := by
  decide
